import Mathlib

/-!
Transcription report: word statistics and grammar findings

A shallow embedding of `src/report.js`.

* JavaScript strings are modelled by `String`; the only operations the program performs on
  them are equality tests (`Array.prototype.includes`), concatenation and `toLowerCase`.
* The counters are JavaScript numbers that are only ever incremented by one, starting from
  zero, at most once per array element; they stay far below `2 ^ 53`, so `Nat` is exact.
* `String.prototype.toLowerCase`, the floating point product and `Number.prototype.toFixed`
  belong to the runtime, not to the program: they are fields of `Host`, and the theorems on
  words and grammar findings hold for every host.  `asciiHost` is a concrete host used to
  evaluate examples; `binary64Host` models the binary64 product and `toFixed` exactly on
  rationals and is the host of the theorems on `overall_confidence`.
* The `await`ed HTTP call is modelled by its outcome: a function from the posted form
  fields to a `ServiceReply`.
-/

namespace Report

/-! ## Runtime primitives -/

/-- Primitives of the JavaScript runtime that the program calls. -/
structure Host where
  /-- The method `String.prototype.toLowerCase`. -/
  toLowerCase : String → String
  /-- The floating point product `a * b`. -/
  mul : ℚ → ℚ → ℚ
  /-- The method `Number.prototype.toFixed`, receiver first. -/
  toFixed : ℚ → Nat → String

/-- Lowercasing of the letters `A`-`Z`, which is what `toLowerCase` does on ASCII text. -/
def asciiToLower (s : String) : String :=
  ⟨s.data.map Char.toLower⟩

/-- Digits of `n`, padded on the left with zeros to at least `width` characters. -/
def padDigits (width n : Nat) : String :=
  ⟨List.replicate (width - (Nat.toDigits 10 n).length) '0' ++ Nat.toDigits 10 n⟩

/-- A host for evaluating examples: ASCII lowercasing, exact rational product, and `toFixed`
on non-negative values by rounding half up. -/
def asciiHost : Host where
  toLowerCase := asciiToLower
  mul := fun a b => a * b
  toFixed := fun x digits =>
    let n := (x * (10 : ℚ) ^ digits + 1 / 2).floor.toNat
    toString (n / 10 ^ digits) ++ "." ++ padDigits digits (n % 10 ^ digits)

/-! ## Data model -/

/-- One element of `response.words`; only `text` is read. -/
structure Word where
  text : String
deriving DecidableEq, Repr

/-- The transcription response passed to `generateTranscriptionReport`. -/
structure TranscriptionResult where
  id : String
  status : String
  audio_url : String
  confidence : ℚ
  text : String
  words : List Word

/-- The `word_details` object of the report. -/
structure WordDetails where
  filler_words_count : Nat
  unique_vocabulary : Nat
  total_words : Nat
  different_words : List String
deriving DecidableEq, Repr

/-- The object `{ count, issues }`. -/
structure GrammarSyntaxIssues where
  count : Nat
  issues : String
deriving DecidableEq, Repr

/-- The report object returned by `generateTranscriptionReport`. -/
structure TranscriptionReport where
  id : String
  status : String
  audio_url : String
  overall_confidence : String
  question : String
  transcript : String
  word_details : WordDetails
  grammar_syntax_issues : GrammarSyntaxIssues
deriving DecidableEq, Repr

/-! ## Grammar service -/

/-- The constant `language`. -/
def language : String := "en"

/-- One element of `response.data.matches`.  A property whose absence makes the program
throw when it is dereferenced is an `Option`:
`category` is `match.rule.category.id` (`none` when `rule` or `rule.category` is absent),
`replacements` the `value`s of `match.replacements` (`none` when the array is absent),
`context` is `match.context.text` (`none` when `match.context` is absent). -/
structure Match where
  category : Option String
  message : String
  replacements : Option (List String)
  context : Option String
deriving DecidableEq, Repr

/-- Outcome of `await axios.post(...)`. -/
inductive ServiceReply where
  /-- The promise rejects (network error, non-2xx status). -/
  | failure
  /-- The promise resolves; the argument is `response.data.matches`, `none` when absent. -/
  | response (allMatches : Option (List Match))
deriving DecidableEq, Repr

/-- A finding of the shape the service documents: every property the program reads is
present. -/
structure Finding where
  categoryId : String
  message : String
  replacements : List String
  contextText : String
deriving DecidableEq, Repr

/-- The element of `matches` that carries a well-formed finding. -/
def Finding.toMatch (f : Finding) : Match :=
  { category := some f.categoryId, message := f.message,
    replacements := some f.replacements, context := some f.contextText }

/-- The call `response.data.matches.filter(match => match.rule.category.id !== "TYPOS")`;
`none` when evaluating the predicate throws. -/
def filterMatches : List Match → Option (List Match)
  | [] => some []
  | m :: rest =>
    match m.category with
    | none => none
    | some id =>
      match filterMatches rest with
      | none => none
      | some kept => some (if id ≠ "TYPOS" then m :: kept else kept)

/-- The call `matches.forEach((match, index) => ...)` from position `index` on, with the
current value of `ans`; `none` when the callback throws. -/
def forEachMatch : List Match → Nat → String → Option String
  | [], _, ans => some ans
  | m :: rest, index, ans =>
    match m.replacements, m.context with
    | some replacements, some contextText =>
      let ans1 := ans ++ ("Issue " ++ toString (index + 1) ++ ":\n")
      let ans2 := ans1 ++ ("- Message: " ++ m.message ++ "\n")
      let ans3 := ans2 ++ ("- Suggestion: " ++ ", ".intercalate replacements ++ "\n")
      let ans4 := ans3 ++ ("- Context: " ++ contextText ++ "\n")
      forEachMatch rest (index + 1) ans4
    | _, _ => none

/-- The body of the `try` block of `checkSyntaxAndGrammar`; `none` when it throws. -/
def tryCheck (post : String → String → ServiceReply) (text : String) :
    Option GrammarSyntaxIssues :=
  match post text language with
  | .failure => none
  | .response none => none
  | .response (some allMatches) =>
    match filterMatches allMatches with
    | none => none
    | some kept =>
      match forEachMatch kept 0 "" with
      | none => none
      | some ans => some { count := kept.length, issues := ans }

/-- The function `checkSyntaxAndGrammar`: the `try` block, and the `catch` result when it
throws. -/
def checkSyntaxAndGrammar (post : String → String → ServiceReply) (text : String) :
    GrammarSyntaxIssues :=
  match tryCheck post text with
  | some result => result
  | none => { count := 0, issues := "" }

/-! ## Word statistics and report -/

/-- The constant `fillerWords`. -/
def fillerWords : List String :=
  ["um", "uh", "like", "basically", "actually", "literally", "so", "well", "yeah", "right",
    "ok", "hmm"]

/-- The local variables of `generateTranscriptionReport` that the loop updates. -/
structure Counters where
  fillerCount : Nat
  vocabulary : Nat
  totalWords : Nat
  wordsEncountered : List String
deriving DecidableEq, Repr

/-- The callback of `response.words.forEach`. -/
def visitWord (H : Host) (s : Counters) (word : Word) : Counters :=
  let s1 := { s with totalWords := s.totalWords + 1 }
  if H.toLowerCase word.text ∈ fillerWords then
    { s1 with fillerCount := s1.fillerCount + 1 }
  else if H.toLowerCase word.text ∉ s1.wordsEncountered then
    { s1 with
      vocabulary := s1.vocabulary + 1
      wordsEncountered := s1.wordsEncountered ++ [H.toLowerCase word.text] }
  else
    s1

/-- The loop `response.words.forEach(...)` started from the given counters. -/
def forEachWord (H : Host) (s : Counters) (words : List Word) : Counters :=
  words.foldl (visitWord H) s

/-- The function `generateTranscriptionReport`. -/
def generateTranscriptionReport (H : Host) (post : String → String → ServiceReply)
    (response : TranscriptionResult) (question : String) : TranscriptionReport :=
  let s := forEachWord H
    { fillerCount := 0, vocabulary := 0, totalWords := 0, wordsEncountered := [] }
    response.words
  let result := checkSyntaxAndGrammar post response.text
  { id := response.id
    status := response.status
    audio_url := response.audio_url
    overall_confidence := H.toFixed (H.mul response.confidence 100) 2
    question := question
    transcript := response.text
    word_details :=
      { filler_words_count := s.fillerCount
        unique_vocabulary := s.vocabulary
        total_words := s.totalWords
        different_words := s.wordsEncountered }
    grammar_syntax_issues :=
      if result.count > 0 then { count := result.count, issues := result.issues }
      else { count := 0, issues := "No Grammar/Syntax Issues Found." } }

/-- A transcription result with the given word texts, for examples. -/
def sampleResult (texts : List String) : TranscriptionResult :=
  { id := "t1", status := "completed", audio_url := "https://example.org/a.wav",
    confidence := 7 / 8, text := " ".intercalate texts, words := texts.map Word.mk }

/-- A service that always answers with the given findings. -/
def sampleService (findings : List Finding) : String → String → ServiceReply :=
  fun _ _ => .response (some (findings.map Finding.toMatch))

/-- A grammar finding with two replacements, for examples. -/
def sampleGrammar : Finding :=
  { categoryId := "GRAMMAR", message := "Use a plural verb.", replacements := ["are", "were"],
    contextText := "They is here" }

/-- A style finding that has no replacement. -/
def sampleStyle : Finding :=
  { categoryId := "STYLE", message := "Wordy sentence.", replacements := [],
    contextText := "in order to" }

/-- A spelling finding. -/
def sampleTypo : Finding :=
  { categoryId := "TYPOS", message := "Possible spelling mistake.", replacements := ["here"],
    contextText := "They is hre" }

/-- An element of `matches` without `rule.category`, for examples. -/
def sampleBroken : Match :=
  { category := none, message := "Incomplete.", replacements := some [], context := some "x" }

/-- A service whose call fails. -/
def failingService : String → String → ServiceReply :=
  fun _ _ => .failure

/-! ## Reference notions used to state the properties -/

/-- The lowercased text of every word, in order. -/
def loweredTexts (H : Host) (words : List Word) : List String :=
  words.map fun w => H.toLowerCase w.text

/-- The lowercased texts that are not filler words, in order, with repetitions. -/
def nonFillerTexts (H : Host) (words : List Word) : List String :=
  (loweredTexts H words).filter fun t => t ∉ fillerWords

/-- Keep the first occurrence of every value, in the original order. -/
def firstOccurrences : List String → List String
  | [] => []
  | x :: xs => x :: (firstOccurrences xs).filter fun y => y ≠ x

/-- The reference list for `different_words`: lowercase every text, drop the fillers, keep
first occurrences. -/
def differentWordsSpec (H : Host) (words : List Word) : List String :=
  firstOccurrences (nonFillerTexts H words)

/-- The predicate kept by the filter: the category id is not `TYPOS`. -/
def Finding.notTypos (f : Finding) : Bool :=
  f.categoryId != "TYPOS"

/-- The reference text block for the finding at 1-based position `k`. -/
def issueBlock (k : Nat) (f : Finding) : String :=
  "Issue " ++ toString k ++ ":\n" ++
  "- Message: " ++ f.message ++ "\n" ++
  "- Suggestion: " ++ ", ".intercalate f.replacements ++ "\n" ++
  "- Context: " ++ f.contextText ++ "\n"

/-- The reference issues text: the blocks of the given findings, numbered from `start`. -/
def issuesTextFrom (start : Nat) (findings : List Finding) : String :=
  String.join ((findings.enumFrom start).map fun p => issueBlock p.1 p.2)

/-! ## The variant of the loop with a set of seen texts -/

/-- The loop variables of the variant: the counters, the ordered list, and a set keyed on
the lowercased text. -/
structure SetCounters where
  fillerCount : Nat
  vocabulary : Nat
  totalWords : Nat
  wordsEncountered : List String
  seen : Finset String

/-- The loop body of the variant: membership is tested in the set, and a new text is both
added to the set and appended to the ordered list. -/
def visitWordSet (H : Host) (s : SetCounters) (word : Word) : SetCounters :=
  let s1 := { s with totalWords := s.totalWords + 1 }
  if H.toLowerCase word.text ∈ fillerWords then
    { s1 with fillerCount := s1.fillerCount + 1 }
  else if H.toLowerCase word.text ∉ s1.seen then
    { s1 with
      vocabulary := s1.vocabulary + 1
      wordsEncountered := s1.wordsEncountered ++ [H.toLowerCase word.text]
      seen := insert (H.toLowerCase word.text) s1.seen }
  else
    s1

/-- The `word_details` computed by the variant. -/
def wordDetailsSet (H : Host) (words : List Word) : WordDetails :=
  let s := words.foldl (visitWordSet H)
    { fillerCount := 0, vocabulary := 0, totalWords := 0, wordsEncountered := [], seen := ∅ }
  { filler_words_count := s.fillerCount
    unique_vocabulary := s.vocabulary
    total_words := s.totalWords
    different_words := s.wordsEncountered }

/-- The counters of the variant without the set. -/
def SetCounters.toCounters (s : SetCounters) : Counters :=
  { fillerCount := s.fillerCount, vocabulary := s.vocabulary, totalWords := s.totalWords,
    wordsEncountered := s.wordsEncountered }

/-- The number of repeated occurrences in a list: the positions whose value already occurs
at an earlier position. -/
def repeatCount (l : List String) : Nat :=
  l.enum.countP fun p => decide (p.2 ∈ l.take p.1)

/-- The words with every text replaced by its lowercased text. -/
def lowercaseWords (H : Host) (words : List Word) : List Word :=
  words.map fun w => { text := H.toLowerCase w.text }

/-! ## Binary floating point

JavaScript numbers are IEEE 754 binary64 values.  A finite one is a rational number, and the
two operations the program applies to `response.confidence` are modelled exactly on `ℚ`:
the product rounds the exact result to the nearest binary64 value, and `toFixed` rounds the
exact value of its receiver to the requested number of decimals. -/

/-- The integer nearest to `q`, a tie going to the even integer. -/
def roundHalfEven (q : ℚ) : ℤ :=
  if q - ⌊q⌋ < 1 / 2 then ⌊q⌋
  else if 1 / 2 < q - ⌊q⌋ then ⌊q⌋ + 1
  else if ⌊q⌋ % 2 = 0 then ⌊q⌋
  else ⌊q⌋ + 1

/-- The number of binary digits of `n`, when `n ≤ fuel`. -/
def bitLength : Nat → Nat → Nat
  | 0, _ => 0
  | fuel + 1, n => if n = 0 then 0 else bitLength fuel (n / 2) + 1

/-- The exponent `e` with `2 ^ e ≤ q < 2 ^ (e + 1)`, for positive `q`: the difference of the
bit lengths of numerator and denominator, or one less. -/
def floorLog2 (q : ℚ) : ℤ :=
  if (2 : ℚ) ^ ((bitLength q.num.natAbs q.num.natAbs : ℤ) - (bitLength q.den q.den : ℤ)) ≤ q then
    (bitLength q.num.natAbs q.num.natAbs : ℤ) - (bitLength q.den q.den : ℤ)
  else (bitLength q.num.natAbs q.num.natAbs : ℤ) - (bitLength q.den q.den : ℤ) - 1

/-- Rounding of an exact result to binary64, round to nearest, ties to even: the result is a
multiple of `2 ^ u` where `u` leaves 53 significant bits, and `u` is at least `-1074`
(subnormal range).  Results of magnitude `2 ^ 1024` or more, which overflow, are not
modelled. -/
def roundBinary64 (q : ℚ) : ℚ :=
  if q = 0 then 0
  else if 0 < q then
    (roundHalfEven (q / (2 : ℚ) ^ max (floorLog2 q - 52) (-1074)) : ℚ) *
      (2 : ℚ) ^ max (floorLog2 q - 52) (-1074)
  else
    -((roundHalfEven (-q / (2 : ℚ) ^ max (floorLog2 (-q) - 52) (-1074)) : ℚ) *
      (2 : ℚ) ^ max (floorLog2 (-q) - 52) (-1074))

/-- The method `Number.prototype.toFixed` on a finite receiver of magnitude below `10 ^ 21`:
with `n` the integer for which `n / 10 ^ digits` is nearest to the magnitude of `x`, the
larger one on a tie, the digits of `n` with a point before the last `digits` of them, after a
minus sign when `x < 0`. -/
def toFixedModel (x : ℚ) (digits : Nat) : String :=
  (if x < 0 then "-" else "") ++
    (if digits = 0 then toString ⌊|x| * (10 : ℚ) ^ digits + 1 / 2⌋.toNat
    else toString (⌊|x| * (10 : ℚ) ^ digits + 1 / 2⌋.toNat / 10 ^ digits) ++ "." ++
      padDigits digits (⌊|x| * (10 : ℚ) ^ digits + 1 / 2⌋.toNat % 10 ^ digits))

/-- The host with binary64 arithmetic: the product is the exact product rounded to binary64.
Lowercasing is the ASCII one. -/
def binary64Host : Host where
  toLowerCase := asciiToLower
  mul := fun a b => roundBinary64 (a * b)
  toFixed := toFixedModel

/-- The reference rendering: the decimal string of `x ≥ 0` rounded to the nearest hundredth,
upward on a tie, with exactly two digits after the decimal point. -/
def hundredthsString (x : ℚ) : String :=
  toString (⌊100 * x + 1 / 2⌋.toNat / 100) ++ "." ++
    ⟨[Nat.digitChar (⌊100 * x + 1 / 2⌋.toNat / 10 % 10),
      Nat.digitChar (⌊100 * x + 1 / 2⌋.toNat % 10)]⟩

/-- The binary64 value nearest to `0.8765`. -/
def confidence8765 : ℚ := 7894810146780479 / 9007199254740992

/-- The binary64 value nearest to `0.33335`. -/
def confidence33335 : ℚ := 6005099743135819 / 18014398509481984

/-- A transcription result with the given confidence, for examples. -/
def sampleWithConfidence (c : ℚ) : TranscriptionResult :=
  { id := "t1", status := "completed", audio_url := "https://example.org/a.wav",
    confidence := c, text := "hello", words := [{ text := "hello" }] }

/-! ## Lemmas on first occurrences -/

theorem mem_firstOccurrences (l : List String) (y : String) :
    y ∈ firstOccurrences l ↔ y ∈ l := by
  induction l with
  | nil => simp [firstOccurrences]
  | cons x xs ih =>
    by_cases h : y = x
    · simp [firstOccurrences, h]
    · simp [firstOccurrences, h, ih]

theorem nodup_firstOccurrences (l : List String) : (firstOccurrences l).Nodup := by
  induction l with
  | nil => simp [firstOccurrences]
  | cons x xs ih =>
    simp only [firstOccurrences, List.nodup_cons]
    exact ⟨by simp, ih.filter _⟩

theorem length_firstOccurrences_le (l : List String) :
    (firstOccurrences l).length ≤ l.length := by
  induction l with
  | nil => simp [firstOccurrences]
  | cons x xs ih =>
    simp only [firstOccurrences, List.length_cons]
    exact Nat.succ_le_succ (le_trans (List.length_filter_le _ _) ih)

theorem firstOccurrences_of_nodup (l : List String) (h : l.Nodup) :
    firstOccurrences l = l := by
  induction l with
  | nil => simp [firstOccurrences]
  | cons x xs ih =>
    rw [List.nodup_cons] at h
    simp only [firstOccurrences, ih h.2]
    congr 1
    rw [List.filter_eq_self]
    intro y hy
    have : y ≠ x := fun e => h.1 (e ▸ hy)
    simpa using this

theorem length_firstOccurrences_eq_card (l : List String) :
    (firstOccurrences l).length = l.toFinset.card := by
  rw [← List.toFinset_card_of_nodup (nodup_firstOccurrences l)]
  congr 1
  ext y
  simp [mem_firstOccurrences]

/-! ## The loop -/

/-- Closed form of the loop from arbitrary counters. -/
theorem forEachWord_eq (H : Host) (words : List Word) (s : Counters) :
    forEachWord H s words =
      { fillerCount := s.fillerCount +
          (loweredTexts H words).countP (fun t => t ∈ fillerWords)
        vocabulary := s.vocabulary +
          ((differentWordsSpec H words).filter fun t => t ∉ s.wordsEncountered).length
        totalWords := s.totalWords + words.length
        wordsEncountered := s.wordsEncountered ++
          (differentWordsSpec H words).filter fun t => t ∉ s.wordsEncountered } := by
  induction words generalizing s with
  | nil => simp [forEachWord, loweredTexts, differentWordsSpec, nonFillerTexts, firstOccurrences]
  | cons w ws ih =>
    have hstep : forEachWord H s (w :: ws) = forEachWord H (visitWord H s w) ws := rfl
    rw [hstep, ih]
    by_cases hf : H.toLowerCase w.text ∈ fillerWords
    · simp [visitWord, hf, loweredTexts, differentWordsSpec, nonFillerTexts, Nat.add_assoc]
      omega
    · by_cases he : H.toLowerCase w.text ∈ s.wordsEncountered
      · have hcongr : ∀ l : List String,
            l.filter (fun a => !decide (a ∈ s.wordsEncountered) &&
              !decide (a = H.toLowerCase w.text)) =
            l.filter (fun t => !decide (t ∈ s.wordsEncountered)) := by
          intro l
          apply List.filter_congr
          intro a _
          by_cases ha : a ∈ s.wordsEncountered
          · simp [ha]
          · have hne : a ≠ H.toLowerCase w.text := fun e => ha (e ▸ he)
            simp [ha, hne]
        simp [visitWord, hf, he, loweredTexts, differentWordsSpec, nonFillerTexts,
          firstOccurrences, List.filter_filter, hcongr]
        omega
      · simp [visitWord, hf, he, loweredTexts, differentWordsSpec, nonFillerTexts,
          firstOccurrences, List.filter_filter]
        omega

/-- Closed form of the `word_details` object of the report. -/
theorem word_details_eq (H : Host) (post : String → String → ServiceReply)
    (response : TranscriptionResult) (question : String) :
    (generateTranscriptionReport H post response question).word_details =
      { filler_words_count :=
          (loweredTexts H response.words).countP (fun t => t ∈ fillerWords)
        unique_vocabulary := (differentWordsSpec H response.words).length
        total_words := response.words.length
        different_words := differentWordsSpec H response.words } := by
  simp [generateTranscriptionReport, forEachWord_eq]

theorem mem_differentWordsSpec (H : Host) (words : List Word) (t : String) :
    t ∈ differentWordsSpec H words ↔ t ∈ loweredTexts H words ∧ t ∉ fillerWords := by
  simp [differentWordsSpec, nonFillerTexts, mem_firstOccurrences]

theorem countP_filler_add_length_nonFiller (H : Host) (words : List Word) :
    (loweredTexts H words).countP (fun t => t ∈ fillerWords) +
      (nonFillerTexts H words).length = words.length := by
  have h := List.length_eq_countP_add_countP (fun t => decide (t ∈ fillerWords))
    (loweredTexts H words)
  have hlen : (loweredTexts H words).length = words.length := by simp [loweredTexts]
  have hnf : (nonFillerTexts H words).length =
      (loweredTexts H words).countP (fun t => !decide (t ∈ fillerWords)) := by
    simp [nonFillerTexts, List.countP_eq_length_filter]
  simp only [Bool.not_eq_true, Bool.decide_eq_false] at h
  omega

/-! ## Claims on the word statistics -/

/-- Claim C1: for every word sequence, `different_words` is the reference list obtained by
lowercasing every text, dropping the texts that are in the filler list and keeping the first
occurrence of every remaining value in the original order; on the words
`Um, hello, um, Hello, world` this gives `hello, world`, with `total_words` 5,
`filler_words_count` 2 and `unique_vocabulary` 2, and on `World, like, hello, WORLD` it gives
`world, hello`. -/
theorem different_words_eq_reference :
    (∀ (H : Host) (post : String → String → ServiceReply) (response : TranscriptionResult)
        (question : String),
      (generateTranscriptionReport H post response question).word_details.different_words =
        firstOccurrences
          ((response.words.map fun w => H.toLowerCase w.text).filter
            fun t => t ∉ fillerWords)) ∧
    (generateTranscriptionReport asciiHost (sampleService [])
        (sampleResult ["Um", "hello", "um", "Hello", "world"]) "q").word_details =
      { filler_words_count := 2, unique_vocabulary := 2, total_words := 5,
        different_words := ["hello", "world"] } ∧
    (generateTranscriptionReport asciiHost (sampleService [])
        (sampleResult ["World", "like", "hello", "WORLD"]) "q").word_details.different_words =
      ["world", "hello"] := by
  refine ⟨?_, by decide, by decide⟩
  intro H post response question
  rw [word_details_eq]
  rfl

/-- Claim C2: for every word sequence, the report satisfies
`filler_words_count + unique_vocabulary ≤ total_words`. -/
theorem filler_add_vocabulary_le_total (H : Host) (post : String → String → ServiceReply)
    (response : TranscriptionResult) (question : String) :
    (generateTranscriptionReport H post response question).word_details.filler_words_count +
      (generateTranscriptionReport H post response question).word_details.unique_vocabulary ≤
    (generateTranscriptionReport H post response question).word_details.total_words := by
  rw [word_details_eq]
  have h1 := countP_filler_add_length_nonFiller H response.words
  have h2 := length_firstOccurrences_le (nonFillerTexts H response.words)
  simp only [differentWordsSpec]
  omega

/-- Claim C3, refuted as stated: on the two words `hello, hello` the report has
`filler_words_count` 0, `unique_vocabulary` 1 and `total_words` 2, so the sum of the first
two is not the third. -/
theorem filler_add_vocabulary_ne_total_of_repeat :
    (generateTranscriptionReport asciiHost (sampleService [])
        (sampleResult ["hello", "hello"]) "q").word_details.filler_words_count +
      (generateTranscriptionReport asciiHost (sampleService [])
        (sampleResult ["hello", "hello"]) "q").word_details.unique_vocabulary ≠
    (generateTranscriptionReport asciiHost (sampleService [])
        (sampleResult ["hello", "hello"]) "q").word_details.total_words := by
  decide

/-- Claim C3, amended: when no two non-filler words of the sequence have the same lowercased
text, the report satisfies `filler_words_count + unique_vocabulary = total_words`. -/
theorem filler_add_vocabulary_eq_total_of_nodup (H : Host)
    (post : String → String → ServiceReply) (response : TranscriptionResult)
    (question : String)
    (hdistinct :
      ((response.words.map fun w => H.toLowerCase w.text).filter
        fun t => t ∉ fillerWords).Nodup) :
    (generateTranscriptionReport H post response question).word_details.filler_words_count +
      (generateTranscriptionReport H post response question).word_details.unique_vocabulary =
    (generateTranscriptionReport H post response question).word_details.total_words := by
  rw [word_details_eq]
  have h1 := countP_filler_add_length_nonFiller H response.words
  have h2 : firstOccurrences (nonFillerTexts H response.words) =
      nonFillerTexts H response.words := firstOccurrences_of_nodup _ hdistinct
  simp only [differentWordsSpec, h2]
  omega

theorem filler_add_vocabulary_eq_total_of_nodup_witness :
    ((((sampleResult ["Um", "hello", "So", "world"]).words.map
        fun w => asciiHost.toLowerCase w.text).filter fun t => t ∉ fillerWords).Nodup) ∧
    (generateTranscriptionReport asciiHost (sampleService [])
        (sampleResult ["Um", "hello", "So", "world"]) "q").word_details.filler_words_count +
      (generateTranscriptionReport asciiHost (sampleService [])
        (sampleResult ["Um", "hello", "So", "world"]) "q").word_details.unique_vocabulary =
    (generateTranscriptionReport asciiHost (sampleService [])
        (sampleResult ["Um", "hello", "So", "world"]) "q").word_details.total_words :=
  ⟨by decide,
    filler_add_vocabulary_eq_total_of_nodup asciiHost (sampleService [])
      (sampleResult ["Um", "hello", "So", "world"]) "q" (by decide)⟩

/-- Claim C4: `total_words` is the length of the input word sequence. -/
theorem total_words_eq_length (H : Host) (post : String → String → ServiceReply)
    (response : TranscriptionResult) (question : String) :
    (generateTranscriptionReport H post response question).word_details.total_words =
      response.words.length := by
  rw [word_details_eq]

/-- Claim C5: `filler_words_count` is the number of words, every occurrence counted, whose
lowercased text is one of the twelve filler words; `Um` and `um` both count, while words that
only contain a filler word (`umbrella`, `okay`, `solike`) do not. -/
theorem filler_words_count_eq_countP :
    (∀ (H : Host) (post : String → String → ServiceReply) (response : TranscriptionResult)
        (question : String),
      (generateTranscriptionReport H post response question).word_details.filler_words_count =
        response.words.countP fun w =>
          H.toLowerCase w.text ∈
            ["um", "uh", "like", "basically", "actually", "literally", "so", "well", "yeah",
              "right", "ok", "hmm"]) ∧
    (generateTranscriptionReport asciiHost (sampleService [])
        (sampleResult ["Um", "um"]) "q").word_details.filler_words_count = 2 ∧
    (generateTranscriptionReport asciiHost (sampleService [])
        (sampleResult ["umbrella", "okay", "solike"]) "q").word_details.filler_words_count =
      0 := by
  refine ⟨?_, by decide, by decide⟩
  intro H post response question
  rw [word_details_eq]
  simp only [loweredTexts, List.countP_map]
  rfl

/-- Claim C6: `unique_vocabulary` is the number of distinct lowercased texts among the
non-filler words, and it is the length of `different_words`. -/
theorem unique_vocabulary_eq_card (H : Host) (post : String → String → ServiceReply)
    (response : TranscriptionResult) (question : String) :
    (generateTranscriptionReport H post response question).word_details.unique_vocabulary =
        ((response.words.map fun w => H.toLowerCase w.text).filter
          fun t => t ∉ fillerWords).toFinset.card ∧
    (generateTranscriptionReport H post response question).word_details.unique_vocabulary =
      (generateTranscriptionReport H post response question).word_details.different_words.length := by
  rw [word_details_eq]
  exact ⟨length_firstOccurrences_eq_card _, rfl⟩

/-- Claim C7: `different_words` has no duplicate entries and contains no element of the
filler-word list. -/
theorem different_words_nodup_and_no_filler (H : Host)
    (post : String → String → ServiceReply) (response : TranscriptionResult)
    (question : String) :
    (generateTranscriptionReport H post response question).word_details.different_words.Nodup ∧
    ∀ t ∈ (generateTranscriptionReport H post response question).word_details.different_words,
      t ∉ fillerWords := by
  rw [word_details_eq]
  refine ⟨nodup_firstOccurrences _, ?_⟩
  intro t ht
  exact ((mem_differentWordsSpec H response.words t).1 ht).2

/-- Claim C8: when the word sequence is empty, the report has `total_words`,
`filler_words_count` and `unique_vocabulary` equal to zero and `different_words` empty. -/
theorem word_details_of_no_words (H : Host) (post : String → String → ServiceReply)
    (response : TranscriptionResult) (question : String) (hempty : response.words = []) :
    (generateTranscriptionReport H post response question).word_details =
      { filler_words_count := 0, unique_vocabulary := 0, total_words := 0,
        different_words := [] } := by
  simp [generateTranscriptionReport, forEachWord, hempty]

theorem word_details_of_no_words_witness :
    (sampleResult []).words = [] ∧
    (generateTranscriptionReport asciiHost (sampleService []) (sampleResult []) "q").word_details =
      { filler_words_count := 0, unique_vocabulary := 0, total_words := 0,
        different_words := [] } :=
  ⟨rfl, word_details_of_no_words asciiHost (sampleService []) (sampleResult []) "q" rfl⟩

/-! ## The grammar checker -/

theorem foldl_append_eq (l : List String) (a : String) :
    l.foldl (fun r s => r ++ s) a = a ++ String.join l := by
  induction l generalizing a with
  | nil => simp [String.join]
  | cons x xs ih =>
    simp only [String.join, List.foldl_cons] at ih ⊢
    rw [ih (a ++ x), ih ("" ++ x), String.empty_append, String.append_assoc]

theorem join_cons (x : String) (xs : List String) :
    String.join (x :: xs) = x ++ String.join xs := by
  simp only [String.join, List.foldl_cons, String.empty_append]
  exact foldl_append_eq xs x

theorem filterMatches_map_toMatch (findings : List Finding) :
    filterMatches (findings.map Finding.toMatch) =
      some ((findings.filter Finding.notTypos).map Finding.toMatch) := by
  induction findings with
  | nil => rfl
  | cons f fs ih =>
    by_cases h : f.categoryId = "TYPOS"
    · simp [filterMatches, ih, Finding.toMatch, Finding.notTypos, h]
    · simp [filterMatches, ih, Finding.toMatch, Finding.notTypos, h]

theorem forEachMatch_map_toMatch (findings : List Finding) (index : Nat) (ans : String) :
    forEachMatch (findings.map Finding.toMatch) index ans =
      some (ans ++ issuesTextFrom (index + 1) findings) := by
  induction findings generalizing index ans with
  | nil => simp [forEachMatch, issuesTextFrom, String.join]
  | cons f fs ih =>
    simp only [List.map_cons, forEachMatch, Finding.toMatch, ih, issuesTextFrom,
      List.enumFrom_cons, join_cons, issueBlock, String.append_assoc]

theorem notTypos_eq_decide :
    (fun f : Finding => decide (f.categoryId ≠ "TYPOS")) = Finding.notTypos := by
  funext f
  by_cases h : f.categoryId = "TYPOS" <;> simp [Finding.notTypos, h]

/-- Closed form of the checker on a reply made of well-formed findings. -/
theorem checkSyntaxAndGrammar_of_findings (post : String → String → ServiceReply)
    (text : String) (findings : List Finding)
    (hreply : post text language = .response (some (findings.map Finding.toMatch))) :
    checkSyntaxAndGrammar post text =
      { count := (findings.filter Finding.notTypos).length
        issues := issuesTextFrom 1 (findings.filter Finding.notTypos) } := by
  simp [checkSyntaxAndGrammar, tryCheck, hreply, filterMatches_map_toMatch,
    forEachMatch_map_toMatch]

/-- Claim C9: on a reply made of well-formed findings, `count` is the number of findings
whose category id is not `TYPOS`; and two replies that differ only by `TYPOS` findings, that
is, whose sequences of non-`TYPOS` findings are the same, give the same `count` and the same
`issues`. -/
theorem count_and_issues_ignore_typos (post post2 : String → String → ServiceReply)
    (text text2 : String) (findings findings2 : List Finding)
    (hreply : post text language = .response (some (findings.map Finding.toMatch)))
    (hreply2 : post2 text2 language = .response (some (findings2.map Finding.toMatch)))
    (hsame : (findings.filter fun f => f.categoryId ≠ "TYPOS") =
      findings2.filter fun f => f.categoryId ≠ "TYPOS") :
    (checkSyntaxAndGrammar post text).count =
        findings.countP (fun f => f.categoryId ≠ "TYPOS") ∧
    (checkSyntaxAndGrammar post2 text2).count = (checkSyntaxAndGrammar post text).count ∧
    (checkSyntaxAndGrammar post2 text2).issues = (checkSyntaxAndGrammar post text).issues := by
  have hpred := notTypos_eq_decide
  rw [hpred] at hsame
  rw [checkSyntaxAndGrammar_of_findings post text findings hreply,
    checkSyntaxAndGrammar_of_findings post2 text2 findings2 hreply2, hpred, ← hsame]
  exact ⟨(List.countP_eq_length_filter _ _).symm, rfl, rfl⟩

theorem count_and_issues_ignore_typos_witness :
    (sampleService [sampleGrammar, sampleStyle] "a" language =
      .response (some ([sampleGrammar, sampleStyle].map Finding.toMatch))) ∧
    (sampleService [sampleTypo, sampleGrammar, sampleTypo, sampleTypo, sampleStyle, sampleTypo]
        "b" language =
      .response (some ([sampleTypo, sampleGrammar, sampleTypo, sampleTypo, sampleStyle,
        sampleTypo].map Finding.toMatch))) ∧
    (([sampleGrammar, sampleStyle].filter fun f => f.categoryId ≠ "TYPOS") =
      [sampleTypo, sampleGrammar, sampleTypo, sampleTypo, sampleStyle, sampleTypo].filter
        fun f => f.categoryId ≠ "TYPOS") ∧
    ((checkSyntaxAndGrammar (sampleService [sampleGrammar, sampleStyle]) "a").count =
        [sampleGrammar, sampleStyle].countP (fun f => f.categoryId ≠ "TYPOS") ∧
      (checkSyntaxAndGrammar (sampleService [sampleTypo, sampleGrammar, sampleTypo, sampleTypo,
          sampleStyle, sampleTypo]) "b").count =
        (checkSyntaxAndGrammar (sampleService [sampleGrammar, sampleStyle]) "a").count ∧
      (checkSyntaxAndGrammar (sampleService [sampleTypo, sampleGrammar, sampleTypo, sampleTypo,
          sampleStyle, sampleTypo]) "b").issues =
        (checkSyntaxAndGrammar (sampleService [sampleGrammar, sampleStyle]) "a").issues) :=
  ⟨rfl, rfl, by decide,
    count_and_issues_ignore_typos (sampleService [sampleGrammar, sampleStyle])
      (sampleService [sampleTypo, sampleGrammar, sampleTypo, sampleTypo, sampleStyle,
        sampleTypo])
      "a" "b" [sampleGrammar, sampleStyle]
      [sampleTypo, sampleGrammar, sampleTypo, sampleTypo, sampleStyle, sampleTypo]
      rfl rfl (by decide)⟩

/-- Claim C10: on a reply made of well-formed findings, `issues` is the concatenation, over
the non-`TYPOS` findings in the order received, of the block
`Issue k:`, `- Message: ...`, `- Suggestion: ...`, `- Context: ...` (each line ended by a
newline), where `k` is the 1-based position in the filtered list and the suggestions are the
replacement values joined by a comma and a space. -/
theorem issues_eq_join_blocks (post : String → String → ServiceReply) (text : String)
    (findings : List Finding)
    (hreply : post text language = .response (some (findings.map Finding.toMatch))) :
    (checkSyntaxAndGrammar post text).issues =
      String.join
        (((findings.filter fun f => f.categoryId ≠ "TYPOS").enumFrom 1).map fun p =>
          "Issue " ++ toString p.1 ++ ":\n" ++
          "- Message: " ++ p.2.message ++ "\n" ++
          "- Suggestion: " ++ ", ".intercalate p.2.replacements ++ "\n" ++
          "- Context: " ++ p.2.contextText ++ "\n") := by
  have hpred := notTypos_eq_decide
  rw [checkSyntaxAndGrammar_of_findings post text findings hreply, hpred]
  rfl

theorem issues_eq_join_blocks_witness :
    (sampleService [sampleTypo, sampleGrammar, sampleTypo, sampleStyle] "a" language =
      .response (some ([sampleTypo, sampleGrammar, sampleTypo, sampleStyle].map
        Finding.toMatch))) ∧
    (checkSyntaxAndGrammar (sampleService [sampleTypo, sampleGrammar, sampleTypo, sampleStyle])
        "a").issues =
      String.join
        ((([sampleTypo, sampleGrammar, sampleTypo, sampleStyle].filter
            fun f => f.categoryId ≠ "TYPOS").enumFrom 1).map fun p =>
          "Issue " ++ toString p.1 ++ ":\n" ++
          "- Message: " ++ p.2.message ++ "\n" ++
          "- Suggestion: " ++ ", ".intercalate p.2.replacements ++ "\n" ++
          "- Context: " ++ p.2.contextText ++ "\n") ∧
    checkSyntaxAndGrammar (sampleService [sampleTypo, sampleGrammar, sampleTypo, sampleStyle])
        "a" =
      { count := 2
        issues :=
          "Issue 1:\n- Message: Use a plural verb.\n- Suggestion: are, were\n" ++
          "- Context: They is here\n" ++
          "Issue 2:\n- Message: Wordy sentence.\n- Suggestion: \n- Context: in order to\n" } :=
  ⟨rfl,
    issues_eq_join_blocks (sampleService [sampleTypo, sampleGrammar, sampleTypo, sampleStyle])
      "a" [sampleTypo, sampleGrammar, sampleTypo, sampleStyle] rfl,
    by decide⟩

/-! ## Failures of the grammar service -/

theorem filterMatches_eq_none_of_missing_category (ms : List Match)
    (h : ∃ m ∈ ms, m.category = none) : filterMatches ms = none := by
  induction ms with
  | nil => simp at h
  | cons m rest ih =>
    cases hc : m.category with
    | none => simp [filterMatches, hc]
    | some id =>
      have hrest : ∃ m2 ∈ rest, m2.category = none := by
        obtain ⟨m2, hm2, hnone⟩ := h
        rcases List.mem_cons.1 hm2 with heq | hin
        · rw [heq, hc] at hnone
          cases hnone
        · exact ⟨m2, hin, hnone⟩
      simp [filterMatches, hc, ih hrest]

theorem mem_of_filterMatches (ms kept : List Match) (hk : filterMatches ms = some kept)
    (m : Match) (hm : m ∈ ms) (hcat : m.category ≠ some "TYPOS") : m ∈ kept := by
  induction ms generalizing kept with
  | nil => simp at hm
  | cons m0 rest ih =>
    cases hc : m0.category with
    | none => simp [filterMatches, hc] at hk
    | some id =>
      cases hr : filterMatches rest with
      | none => simp [filterMatches, hc, hr] at hk
      | some kept0 =>
        simp only [filterMatches, hc, hr, Option.some.injEq] at hk
        rcases List.mem_cons.1 hm with heq | hin
        · subst heq
          have hid : id ≠ "TYPOS" := fun e => hcat (by rw [hc, e])
          rw [if_pos hid] at hk
          rw [← hk]
          exact List.mem_cons_self _ _
        · have hin0 := ih kept0 hr hin
          rw [← hk]
          split
          · exact List.mem_cons_of_mem _ hin0
          · exact hin0

theorem forEachMatch_eq_none_of_missing (kept : List Match) (index : Nat) (ans : String)
    (h : ∃ m ∈ kept, m.replacements = none ∨ m.context = none) :
    forEachMatch kept index ans = none := by
  induction kept generalizing index ans with
  | nil => simp at h
  | cons m rest ih =>
    cases hr : m.replacements with
    | none => simp [forEachMatch, hr]
    | some reps =>
      cases hx : m.context with
      | none => simp [forEachMatch, hr, hx]
      | some ctx =>
        have hrest : ∃ m2 ∈ rest, m2.replacements = none ∨ m2.context = none := by
          obtain ⟨m2, hm2, hmiss⟩ := h
          rcases List.mem_cons.1 hm2 with heq | hin
          · rw [heq, hr, hx] at hmiss
            rcases hmiss with h1 | h1 <;> cases h1
          · exact ⟨m2, hin, hmiss⟩
        simp only [forEachMatch, hr, hx]
        exact ih _ _ hrest

/-- The `try` block throws on a reply that holds a finding it cannot process. -/
theorem tryCheck_eq_none_of_unprocessable (post : String → String → ServiceReply)
    (text : String) (ms : List Match) (hreply : post text language = .response (some ms))
    (hbad : ∃ m ∈ ms, m.category = none ∨
      (m.category ≠ some "TYPOS" ∧ (m.replacements = none ∨ m.context = none))) :
    tryCheck post text = none := by
  obtain ⟨m, hm, hcase⟩ := hbad
  cases hk : filterMatches ms with
  | none => simp [tryCheck, hreply, hk]
  | some kept =>
    rcases hcase with hnone | ⟨hcat, hmiss⟩
    · rw [filterMatches_eq_none_of_missing_category ms ⟨m, hm, hnone⟩] at hk
      cases hk
    · have hin := mem_of_filterMatches ms kept hk m hm hcat
      simp [tryCheck, hreply, hk, forEachMatch_eq_none_of_missing kept 0 "" ⟨m, hin, hmiss⟩]

/-- Claim C11: `checkSyntaxAndGrammar` returns exactly `count` 0 and the empty `issues`
whenever the network call fails, or `matches` is missing from the response, or some finding
lacks `rule.category`, or some finding that is not filtered out lacks its replacements or its
context. -/
theorem checkSyntaxAndGrammar_of_failure (post : String → String → ServiceReply)
    (text : String)
    (hfail : post text language = .failure ∨ post text language = .response none ∨
      ∃ ms, post text language = .response (some ms) ∧
        ∃ m ∈ ms, m.category = none ∨
          (m.category ≠ some "TYPOS" ∧ (m.replacements = none ∨ m.context = none))) :
    checkSyntaxAndGrammar post text = { count := 0, issues := "" } := by
  rcases hfail with h | h | ⟨ms, hreply, hbad⟩
  · simp [checkSyntaxAndGrammar, tryCheck, h]
  · simp [checkSyntaxAndGrammar, tryCheck, h]
  · simp [checkSyntaxAndGrammar, tryCheck_eq_none_of_unprocessable post text ms hreply hbad]

theorem checkSyntaxAndGrammar_of_failure_witness :
    ((fun _ _ => ServiceReply.response (some [sampleGrammar.toMatch, sampleBroken])) "a" language
          = ServiceReply.failure ∨
        (fun _ _ => ServiceReply.response (some [sampleGrammar.toMatch, sampleBroken])) "a"
          language = ServiceReply.response none ∨
        ∃ ms, (fun _ _ => ServiceReply.response (some [sampleGrammar.toMatch, sampleBroken])) "a"
            language = ServiceReply.response (some ms) ∧
          ∃ m ∈ ms, m.category = none ∨
            (m.category ≠ some "TYPOS" ∧ (m.replacements = none ∨ m.context = none))) ∧
    checkSyntaxAndGrammar
        (fun _ _ => ServiceReply.response (some [sampleGrammar.toMatch, sampleBroken])) "a" =
      { count := 0, issues := "" } :=
  ⟨Or.inr (Or.inr ⟨[sampleGrammar.toMatch, sampleBroken], rfl, sampleBroken, by decide,
      Or.inl rfl⟩),
    checkSyntaxAndGrammar_of_failure
      (fun _ _ => ServiceReply.response (some [sampleGrammar.toMatch, sampleBroken])) "a"
      (Or.inr (Or.inr ⟨[sampleGrammar.toMatch, sampleBroken], rfl, sampleBroken, by decide,
        Or.inl rfl⟩))⟩

/-- Claim C12: the report's `grammar_syntax_issues` is the checker's `count` and `issues` when
`count > 0`, and `count` 0 with the message `No Grammar/Syntax Issues Found.` otherwise; in
particular a reply whose findings are all of category `TYPOS` gives `count` 0 with that
message. -/
theorem grammar_syntax_issues_eq_merge (H : Host) (post : String → String → ServiceReply)
    (response : TranscriptionResult) (question : String) :
    (generateTranscriptionReport H post response question).grammar_syntax_issues =
      (if (checkSyntaxAndGrammar post response.text).count > 0 then
        { count := (checkSyntaxAndGrammar post response.text).count
          issues := (checkSyntaxAndGrammar post response.text).issues }
      else { count := 0, issues := "No Grammar/Syntax Issues Found." }) ∧
    ∀ findings : List Finding,
      post response.text language = .response (some (findings.map Finding.toMatch)) →
      (findings.filter fun f => f.categoryId ≠ "TYPOS") = [] →
      (generateTranscriptionReport H post response question).grammar_syntax_issues =
        { count := 0, issues := "No Grammar/Syntax Issues Found." } := by
  refine ⟨rfl, ?_⟩
  intro findings hreply hnone
  rw [notTypos_eq_decide] at hnone
  simp [generateTranscriptionReport,
    checkSyntaxAndGrammar_of_findings post response.text findings hreply, hnone]

theorem grammar_syntax_issues_eq_merge_witness :
    sampleService [sampleTypo, sampleTypo] (sampleResult ["hello"]).text language =
      .response (some ([sampleTypo, sampleTypo].map Finding.toMatch)) ∧
    ([sampleTypo, sampleTypo].filter fun f => f.categoryId ≠ "TYPOS") = [] ∧
    (generateTranscriptionReport asciiHost (sampleService [sampleTypo, sampleTypo])
        (sampleResult ["hello"]) "q").grammar_syntax_issues =
      { count := 0, issues := "No Grammar/Syntax Issues Found." } ∧
    (generateTranscriptionReport asciiHost (sampleService [sampleTypo, sampleStyle])
        (sampleResult ["hello"]) "q").grammar_syntax_issues =
      { count := 1
        issues := "Issue 1:\n- Message: Wordy sentence.\n- Suggestion: \n" ++
          "- Context: in order to\n" } :=
  ⟨rfl, by decide,
    (grammar_syntax_issues_eq_merge asciiHost (sampleService [sampleTypo, sampleTypo])
      (sampleResult ["hello"]) "q").2 [sampleTypo, sampleTypo] rfl (by decide),
    by decide⟩

/-- Claim C13: when the grammar service call fails, the report is still produced, its
`grammar_syntax_issues` is `count` 0 with the message `No Grammar/Syntax Issues Found.`, and
its `word_details` and scalar fields are those of the report produced with any other
service. -/
theorem report_of_failed_service (H : Host) (post post2 : String → String → ServiceReply)
    (response : TranscriptionResult) (question : String)
    (hfail : post response.text language = .failure) :
    (generateTranscriptionReport H post response question).grammar_syntax_issues =
      { count := 0, issues := "No Grammar/Syntax Issues Found." } ∧
    generateTranscriptionReport H post response question =
      { generateTranscriptionReport H post2 response question with
        grammar_syntax_issues :=
          { count := 0, issues := "No Grammar/Syntax Issues Found." } } := by
  have hcheck : checkSyntaxAndGrammar post response.text = { count := 0, issues := "" } := by
    simp [checkSyntaxAndGrammar, tryCheck, hfail]
  constructor
  · simp [generateTranscriptionReport, hcheck]
  · simp [generateTranscriptionReport, hcheck]

theorem report_of_failed_service_witness :
    failingService (sampleResult ["Um", "hello"]).text language = .failure ∧
    (generateTranscriptionReport asciiHost failingService (sampleResult ["Um", "hello"])
        "q").grammar_syntax_issues =
      { count := 0, issues := "No Grammar/Syntax Issues Found." } ∧
    generateTranscriptionReport asciiHost failingService (sampleResult ["Um", "hello"]) "q" =
      { generateTranscriptionReport asciiHost (sampleService [sampleGrammar])
          (sampleResult ["Um", "hello"]) "q" with
        grammar_syntax_issues :=
          { count := 0, issues := "No Grammar/Syntax Issues Found." } } :=
  ⟨rfl,
    report_of_failed_service asciiHost failingService (sampleService [sampleGrammar])
      (sampleResult ["Um", "hello"]) "q" rfl⟩

/-! ## Refinement: list scan and set lookup -/

/-- One step of the variant matches one step of the loop, and the set stays the set of the
elements of the ordered list. -/
theorem visitWordSet_simulates (H : Host) (s : SetCounters) (word : Word)
    (hseen : s.seen = s.wordsEncountered.toFinset) :
    (visitWordSet H s word).toCounters = visitWord H s.toCounters word ∧
    (visitWordSet H s word).seen = (visitWordSet H s word).wordsEncountered.toFinset := by
  by_cases hf : H.toLowerCase word.text ∈ fillerWords
  · simp [visitWordSet, visitWord, SetCounters.toCounters, hf, hseen]
  · by_cases he : H.toLowerCase word.text ∈ s.wordsEncountered
    · simp [visitWordSet, visitWord, SetCounters.toCounters, hf, he, hseen]
    · simp [visitWordSet, visitWord, SetCounters.toCounters, hf, he, hseen]
      ext t
      simp [or_comm]

theorem foldl_visitWordSet_simulates (H : Host) (words : List Word) (s : SetCounters)
    (hseen : s.seen = s.wordsEncountered.toFinset) :
    (words.foldl (visitWordSet H) s).toCounters = forEachWord H s.toCounters words := by
  induction words generalizing s with
  | nil => rfl
  | cons w ws ih =>
    have hstep := visitWordSet_simulates H s w hseen
    simp only [List.foldl_cons, forEachWord]
    rw [ih _ hstep.2, hstep.1]
    rfl

/-- Claim C15: the loop with its linear scan of the ordered list of seen texts and the
variant that tests membership in a set keyed on the lowercased text, while still appending to
the ordered list, produce the same `filler_words_count`, `unique_vocabulary`, `total_words`
and `different_words` for every word sequence. -/
theorem word_details_eq_wordDetailsSet (H : Host) (post : String → String → ServiceReply)
    (response : TranscriptionResult) (question : String) :
    (generateTranscriptionReport H post response question).word_details =
      wordDetailsSet H response.words := by
  have h := foldl_visitWordSet_simulates H response.words
    { fillerCount := 0, vocabulary := 0, totalWords := 0, wordsEncountered := [], seen := ∅ }
    rfl
  simp only [generateTranscriptionReport, wordDetailsSet]
  rw [show ({ fillerCount := 0, vocabulary := 0, totalWords := 0, wordsEncountered := [] } :
    Counters) = SetCounters.toCounters
      { fillerCount := 0, vocabulary := 0, totalWords := 0, wordsEncountered := [], seen := ∅ }
    from rfl, ← h]
  rfl

/-! ## Repeated occurrences and appending -/

theorem firstOccurrences_append (a b : List String) :
    firstOccurrences (a ++ b) =
      firstOccurrences a ++ (firstOccurrences b).filter fun t => t ∉ a := by
  induction a with
  | nil => simp [firstOccurrences]
  | cons x xs ih =>
    have hcons : firstOccurrences (x :: (xs ++ b)) =
        x :: (firstOccurrences (xs ++ b)).filter fun y => y ≠ x := rfl
    have hhead : firstOccurrences (x :: xs) =
        x :: (firstOccurrences xs).filter fun y => y ≠ x := rfl
    rw [List.cons_append, hcons, hhead, ih, List.filter_append, List.filter_filter,
      List.cons_append]
    congr 2
    apply List.filter_congr
    intro t _
    by_cases h1 : t = x <;> by_cases h2 : t ∈ xs <;> simp [h1, h2]

theorem repeatCount_concat (l : List String) (x : String) :
    repeatCount (l ++ [x]) = repeatCount l + if x ∈ l then 1 else 0 := by
  have hfront : (l.enum.countP fun p => decide (p.2 ∈ (l ++ [x]).take p.1)) =
      l.enum.countP fun p => decide (p.2 ∈ l.take p.1) := by
    apply List.countP_congr
    intro p hp
    have hlt : p.1 ≤ l.length := Nat.le_of_lt (List.fst_lt_of_mem_enum hp)
    rw [List.take_append_of_le_length hlt]
  simp only [repeatCount, List.enum_append, List.countP_append, hfront]
  by_cases hx : x ∈ l <;> simp [List.enumFrom, List.countP_cons, hx]

theorem repeatCount_add_length (l : List String) :
    repeatCount l + (firstOccurrences l).length = l.length := by
  induction l using List.reverseRecOn with
  | nil => simp [repeatCount, firstOccurrences]
  | append_singleton l x ih =>
    rw [repeatCount_concat, firstOccurrences_append]
    by_cases hx : x ∈ l
    · simp [firstOccurrences, hx]
      omega
    · simp [firstOccurrences, hx]
      omega

theorem length_firstOccurrences_eq_iff_nodup (l : List String) :
    (firstOccurrences l).length = l.length ↔ l.Nodup := by
  constructor
  · intro h
    rw [length_firstOccurrences_eq_card] at h
    have h2 := (Multiset.toFinset_card_eq_card_iff_nodup (m := (l : Multiset String))).1
      (by simpa using h)
    simpa using h2
  · intro h
    rw [firstOccurrences_of_nodup l h]

theorem differentWordsSpec_append (H : Host) (a b : List Word) :
    differentWordsSpec H (a ++ b) =
      differentWordsSpec H a ++
        (differentWordsSpec H b).filter fun t => t ∉ nonFillerTexts H a := by
  simp only [differentWordsSpec, nonFillerTexts, loweredTexts, List.map_append,
    List.filter_append, firstOccurrences_append]

/-- Claim C16: `filler_words_count + unique_vocabulary = total_words` holds exactly when no two
non-filler words have the same lowercased text, and
`total_words - filler_words_count - unique_vocabulary` is the number of repeated occurrences
of non-filler words; on `hello, um, Hello, hello, world` the counts are 1, 2 and 5 and there
are two repeated occurrences. -/
theorem filler_add_vocabulary_eq_total_iff :
    (∀ (H : Host) (post : String → String → ServiceReply) (response : TranscriptionResult)
        (question : String),
      ((generateTranscriptionReport H post response question).word_details.filler_words_count +
          (generateTranscriptionReport H post response question).word_details.unique_vocabulary =
          (generateTranscriptionReport H post response question).word_details.total_words ↔
        ((response.words.map fun w => H.toLowerCase w.text).filter
          fun t => t ∉ fillerWords).Nodup) ∧
      (generateTranscriptionReport H post response question).word_details.total_words -
          (generateTranscriptionReport H post response question).word_details.filler_words_count -
          (generateTranscriptionReport H post response question).word_details.unique_vocabulary =
        repeatCount ((response.words.map fun w => H.toLowerCase w.text).filter
          fun t => t ∉ fillerWords)) ∧
    (generateTranscriptionReport asciiHost (sampleService [])
        (sampleResult ["hello", "um", "Hello", "hello", "world"]) "q").word_details =
      { filler_words_count := 1, unique_vocabulary := 2, total_words := 5,
        different_words := ["hello", "world"] } ∧
    repeatCount ((["hello", "um", "Hello", "hello", "world"].map asciiToLower).filter
      fun t => t ∉ fillerWords) = 2 := by
  refine ⟨?_, by decide, by decide⟩
  intro H post response question
  rw [word_details_eq]
  have h1 := countP_filler_add_length_nonFiller H response.words
  have h2 := repeatCount_add_length (nonFillerTexts H response.words)
  have h3 := length_firstOccurrences_eq_iff_nodup (nonFillerTexts H response.words)
  have hnf : ((response.words.map fun w => H.toLowerCase w.text).filter
      fun t => t ∉ fillerWords) = nonFillerTexts H response.words := rfl
  rw [hnf]
  simp only [differentWordsSpec]
  constructor
  · rw [← h3]
    constructor <;> intro h <;> omega
  · omega

/-- Claim C19: for all word sequences `a` and `b`, `different_words` for `a` is a prefix of
`different_words` for `a ++ b`, `filler_words_count` for `a ++ b` is the sum of those for `a`
and `b`, and `unique_vocabulary` for `a ++ b` lies between that for `a` and the sum of those
for `a` and `b`. -/
theorem word_details_append (H : Host) (postA postB postAB : String → String → ServiceReply)
    (ra rb rab : TranscriptionResult) (qa qb qab : String)
    (hab : rab.words = ra.words ++ rb.words) :
    (∃ t, (generateTranscriptionReport H postAB rab qab).word_details.different_words =
      (generateTranscriptionReport H postA ra qa).word_details.different_words ++ t) ∧
    (generateTranscriptionReport H postAB rab qab).word_details.filler_words_count =
      (generateTranscriptionReport H postA ra qa).word_details.filler_words_count +
        (generateTranscriptionReport H postB rb qb).word_details.filler_words_count ∧
    (generateTranscriptionReport H postA ra qa).word_details.unique_vocabulary ≤
      (generateTranscriptionReport H postAB rab qab).word_details.unique_vocabulary ∧
    (generateTranscriptionReport H postAB rab qab).word_details.unique_vocabulary ≤
      (generateTranscriptionReport H postA ra qa).word_details.unique_vocabulary +
        (generateTranscriptionReport H postB rb qb).word_details.unique_vocabulary := by
  simp only [word_details_eq, hab, differentWordsSpec_append, List.length_append]
  refine ⟨⟨_, rfl⟩, ?_, Nat.le_add_right _ _, ?_⟩
  · simp [loweredTexts, List.countP_append]
  · exact Nat.add_le_add_left (List.length_filter_le _ _) _

theorem word_details_append_witness :
    (sampleResult ["Um", "hello", "world", "so", "Hello", "there"]).words =
      (sampleResult ["Um", "hello", "world"]).words ++
        (sampleResult ["so", "Hello", "there"]).words ∧
    ((∃ t, (generateTranscriptionReport asciiHost (sampleService [])
          (sampleResult ["Um", "hello", "world", "so", "Hello", "there"])
          "q").word_details.different_words =
        (generateTranscriptionReport asciiHost (sampleService [])
          (sampleResult ["Um", "hello", "world"]) "q").word_details.different_words ++ t) ∧
      (generateTranscriptionReport asciiHost (sampleService [])
          (sampleResult ["Um", "hello", "world", "so", "Hello", "there"])
          "q").word_details.filler_words_count =
        (generateTranscriptionReport asciiHost (sampleService [])
          (sampleResult ["Um", "hello", "world"]) "q").word_details.filler_words_count +
        (generateTranscriptionReport asciiHost (sampleService [])
          (sampleResult ["so", "Hello", "there"]) "q").word_details.filler_words_count ∧
      (generateTranscriptionReport asciiHost (sampleService [])
          (sampleResult ["Um", "hello", "world"]) "q").word_details.unique_vocabulary ≤
        (generateTranscriptionReport asciiHost (sampleService [])
          (sampleResult ["Um", "hello", "world", "so", "Hello", "there"])
          "q").word_details.unique_vocabulary ∧
      (generateTranscriptionReport asciiHost (sampleService [])
          (sampleResult ["Um", "hello", "world", "so", "Hello", "there"])
          "q").word_details.unique_vocabulary ≤
        (generateTranscriptionReport asciiHost (sampleService [])
          (sampleResult ["Um", "hello", "world"]) "q").word_details.unique_vocabulary +
        (generateTranscriptionReport asciiHost (sampleService [])
          (sampleResult ["so", "Hello", "there"]) "q").word_details.unique_vocabulary) :=
  ⟨rfl,
    word_details_append asciiHost (sampleService []) (sampleService []) (sampleService [])
      (sampleResult ["Um", "hello", "world"]) (sampleResult ["so", "Hello", "there"])
      (sampleResult ["Um", "hello", "world", "so", "Hello", "there"]) "q" "q" "q" rfl⟩

/-! ## Case insensitivity -/

theorem loweredTexts_eq_of_forall₂ (H : Host) (a b : List Word)
    (h : List.Forall₂ (fun w1 w2 => H.toLowerCase w1.text = H.toLowerCase w2.text) a b) :
    loweredTexts H a = loweredTexts H b := by
  induction h with
  | nil => rfl
  | cons hhead _ ih =>
    simp only [loweredTexts, List.map_cons] at ih ⊢
    rw [hhead, ih]

theorem word_details_congr (H : Host) (post1 post2 : String → String → ServiceReply)
    (r1 r2 : TranscriptionResult) (q1 q2 : String)
    (h : loweredTexts H r1.words = loweredTexts H r2.words) :
    (generateTranscriptionReport H post1 r1 q1).word_details =
      (generateTranscriptionReport H post2 r2 q2).word_details := by
  have hlen : r1.words.length = r2.words.length := by
    have := congrArg List.length h
    simpa [loweredTexts] using this
  simp only [word_details_eq, differentWordsSpec, nonFillerTexts, h, hlen]

/-- Claim C17: two word sequences of equal length whose texts agree position by position
after lowercasing give the same `word_details`; in particular, when lowercasing is idempotent
on the input texts, replacing every word by its lowercased text leaves `word_details`
unchanged. -/
theorem word_details_case_insensitive (H : Host) (post1 post2 : String → String → ServiceReply)
    (r1 r2 : TranscriptionResult) (q1 q2 : String)
    (hagree : List.Forall₂ (fun w1 w2 => H.toLowerCase w1.text = H.toLowerCase w2.text)
      r1.words r2.words) :
    (generateTranscriptionReport H post1 r1 q1).word_details =
      (generateTranscriptionReport H post2 r2 q2).word_details ∧
    ((∀ w ∈ r1.words, H.toLowerCase (H.toLowerCase w.text) = H.toLowerCase w.text) →
      (generateTranscriptionReport H post1
          { r1 with words := lowercaseWords H r1.words } q1).word_details =
        (generateTranscriptionReport H post1 r1 q1).word_details) := by
  refine ⟨word_details_congr H post1 post2 r1 r2 q1 q2
    (loweredTexts_eq_of_forall₂ H _ _ hagree), ?_⟩
  intro hidem
  apply word_details_congr
  simp only [loweredTexts, lowercaseWords, List.map_map]
  apply List.map_congr_left
  intro w hw
  exact hidem w hw

theorem word_details_case_insensitive_witness :
    List.Forall₂ (fun w1 w2 => asciiHost.toLowerCase w1.text = asciiHost.toLowerCase w2.text)
        (sampleResult ["Um", "HELLO", "World"]).words
        (sampleResult ["uM", "Hello", "wORLD"]).words ∧
    (generateTranscriptionReport asciiHost (sampleService []) (sampleResult ["Um", "HELLO",
        "World"]) "q").word_details =
      (generateTranscriptionReport asciiHost (sampleService [sampleGrammar])
        (sampleResult ["uM", "Hello", "wORLD"]) "p").word_details ∧
    (∀ w ∈ (sampleResult ["Um", "HELLO", "World"]).words,
      asciiHost.toLowerCase (asciiHost.toLowerCase w.text) = asciiHost.toLowerCase w.text) ∧
    (generateTranscriptionReport asciiHost (sampleService [])
        { sampleResult ["Um", "HELLO", "World"] with
          words := lowercaseWords asciiHost (sampleResult ["Um", "HELLO", "World"]).words }
        "q").word_details =
      (generateTranscriptionReport asciiHost (sampleService []) (sampleResult ["Um", "HELLO",
        "World"]) "q").word_details :=
  have hagree : List.Forall₂
      (fun w1 w2 => asciiHost.toLowerCase w1.text = asciiHost.toLowerCase w2.text)
      (sampleResult ["Um", "HELLO", "World"]).words
      (sampleResult ["uM", "Hello", "wORLD"]).words :=
    List.Forall₂.cons (by decide)
      (List.Forall₂.cons (by decide) (List.Forall₂.cons (by decide) List.Forall₂.nil))
  have hidem : ∀ w ∈ (sampleResult ["Um", "HELLO", "World"]).words,
      asciiHost.toLowerCase (asciiHost.toLowerCase w.text) = asciiHost.toLowerCase w.text := by
    decide
  ⟨hagree,
    (word_details_case_insensitive asciiHost (sampleService []) (sampleService [sampleGrammar])
      (sampleResult ["Um", "HELLO", "World"]) (sampleResult ["uM", "Hello", "wORLD"]) "q" "p"
      hagree).1,
    hidem,
    (word_details_case_insensitive asciiHost (sampleService []) (sampleService [sampleGrammar])
      (sampleResult ["Um", "HELLO", "World"]) (sampleResult ["uM", "Hello", "wORLD"]) "q" "p"
      hagree).2 hidem⟩

/-! ## Shape of the issues text in the report -/

theorem forEachMatch_extends (kept : List Match) (index : Nat) (ans r : String)
    (h : forEachMatch kept index ans = some r) : ∃ t, r = ans ++ t := by
  induction kept generalizing index ans with
  | nil =>
    simp only [forEachMatch, Option.some.injEq] at h
    exact ⟨"", by rw [← h, String.append_empty]⟩
  | cons m rest ih =>
    cases hr : m.replacements with
    | none => simp [forEachMatch, hr] at h
    | some reps =>
      cases hx : m.context with
      | none => simp [forEachMatch, hr, hx] at h
      | some ctx =>
        simp only [forEachMatch, hr, hx] at h
        obtain ⟨t, ht⟩ := ih _ _ h
        rw [ht]
        simp only [String.append_assoc]
        exact ⟨_, rfl⟩

theorem forEachMatch_starts_with_issue_one (m : Match) (rest : List Match) (r : String)
    (h : forEachMatch (m :: rest) 0 "" = some r) : ∃ t, r = "Issue 1:\n" ++ t := by
  cases hr : m.replacements with
  | none => simp [forEachMatch, hr] at h
  | some reps =>
    cases hx : m.context with
    | none => simp [forEachMatch, hr, hx] at h
    | some ctx =>
      simp only [forEachMatch, hr, hx] at h
      obtain ⟨t, ht⟩ := forEachMatch_extends _ _ _ _ h
      have h1 : "Issue " ++ toString (0 + 1) ++ ":\n" = "Issue 1:\n" := by decide
      rw [ht, String.empty_append, h1]
      simp only [String.append_assoc]
      exact ⟨_, rfl⟩

theorem issue_one_ne (t : String) :
    "Issue 1:\n" ++ t ≠ "" ∧ "Issue 1:\n" ++ t ≠ "No Grammar/Syntax Issues Found." := by
  have hd : ("Issue 1:\n" ++ t).data = 'I' :: ("ssue 1:\n" ++ t).data := rfl
  constructor
  · intro h
    have h2 := congrArg String.data h
    rw [hd] at h2
    cases h2
  · intro h
    have h2 := congrArg String.data h
    rw [hd] at h2
    have h3 : "No Grammar/Syntax Issues Found.".data =
        'N' :: "o Grammar/Syntax Issues Found.".data := rfl
    rw [h3] at h2
    have h4 := (List.cons.inj h2).1
    exact absurd h4 (by decide)

/-- The checker either reports nothing or a text that starts with the first issue. -/
theorem checkSyntaxAndGrammar_shape (post : String → String → ServiceReply) (text : String)
    (hpos : 0 < (checkSyntaxAndGrammar post text).count) :
    ∃ t, (checkSyntaxAndGrammar post text).issues = "Issue 1:\n" ++ t := by
  unfold checkSyntaxAndGrammar at hpos ⊢
  cases htry : tryCheck post text with
  | none => simp [htry] at hpos
  | some result =>
    simp only [htry] at hpos ⊢
    unfold tryCheck at htry
    cases hreply : post text language with
    | failure => simp [hreply] at htry
    | response allMatches =>
      cases allMatches with
      | none => simp [hreply] at htry
      | some ms =>
        simp only [hreply] at htry
        cases hk : filterMatches ms with
        | none => simp [hk] at htry
        | some kept =>
          simp only [hk] at htry
          cases hans : forEachMatch kept 0 "" with
          | none => simp [hans] at htry
          | some ans =>
            simp only [hans, Option.some.injEq] at htry
            subst htry
            cases kept with
            | nil => simp at hpos
            | cons m rest => exact forEachMatch_starts_with_issue_one m rest ans hans

/-- Claim C18: in every report, `grammar_syntax_issues.issues` is not the empty string,
`grammar_syntax_issues.count` is 0 exactly when `issues` is the message
`No Grammar/Syntax Issues Found.`, and when `count > 0` the text begins with `Issue 1:`. -/
theorem grammar_syntax_issues_shape (H : Host) (post : String → String → ServiceReply)
    (response : TranscriptionResult) (question : String) :
    (generateTranscriptionReport H post response question).grammar_syntax_issues.issues ≠ "" ∧
    ((generateTranscriptionReport H post response question).grammar_syntax_issues.count = 0 ↔
      (generateTranscriptionReport H post response question).grammar_syntax_issues.issues =
        "No Grammar/Syntax Issues Found.") ∧
    (0 < (generateTranscriptionReport H post response question).grammar_syntax_issues.count →
      ∃ t, (generateTranscriptionReport H post response question).grammar_syntax_issues.issues =
        "Issue 1:\n" ++ t) := by
  have hmerge :
      (generateTranscriptionReport H post response question).grammar_syntax_issues =
        (if (checkSyntaxAndGrammar post response.text).count > 0 then
          { count := (checkSyntaxAndGrammar post response.text).count
            issues := (checkSyntaxAndGrammar post response.text).issues }
        else { count := 0, issues := "No Grammar/Syntax Issues Found." }) := rfl
  rw [hmerge]
  by_cases hpos : (checkSyntaxAndGrammar post response.text).count > 0
  · obtain ⟨t, ht⟩ := checkSyntaxAndGrammar_shape post response.text hpos
    have hne := issue_one_ne t
    rw [if_pos hpos]
    simp only [ht]
    refine ⟨hne.1, ⟨fun h0 => ?_, fun hs => absurd hs hne.2⟩, fun _ => ⟨t, rfl⟩⟩
    omega
  · rw [if_neg hpos]
    refine ⟨by decide, ⟨fun _ => rfl, fun _ => rfl⟩, fun h0 => ?_⟩
    simp at h0

theorem grammar_syntax_issues_shape_witness :
    0 < (generateTranscriptionReport asciiHost (sampleService [sampleTypo, sampleStyle])
        (sampleResult ["hello"]) "q").grammar_syntax_issues.count ∧
    ∃ t, (generateTranscriptionReport asciiHost (sampleService [sampleTypo, sampleStyle])
        (sampleResult ["hello"]) "q").grammar_syntax_issues.issues = "Issue 1:\n" ++ t :=
  ⟨by decide,
    (grammar_syntax_issues_shape asciiHost (sampleService [sampleTypo, sampleStyle])
      (sampleResult ["hello"]) "q").2.2 (by decide)⟩

/-! ## The confidence percentage -/

theorem roundHalfEven_err (q : ℚ) : |(roundHalfEven q : ℚ) - q| ≤ 1 / 2 := by
  have h1 := Int.floor_le q
  have h2 := Int.lt_floor_add_one q
  unfold roundHalfEven
  split_ifs <;> push_cast <;> rw [abs_le] <;> constructor <;> linarith

theorem roundHalfEven_nonneg (q : ℚ) (h : 0 ≤ q) : 0 ≤ roundHalfEven q := by
  have h1 : 0 ≤ ⌊q⌋ := Int.floor_nonneg.2 h
  unfold roundHalfEven
  split_ifs <;> omega

theorem bitLength_zero (fuel : Nat) : bitLength fuel 0 = 0 := by
  cases fuel <;> simp [bitLength]

theorem bitLength_bounds (fuel n : Nat) (hfuel : n ≤ fuel) (hn : 0 < n) :
    2 ^ (bitLength fuel n - 1) ≤ n ∧ n < 2 ^ bitLength fuel n := by
  induction fuel generalizing n with
  | zero => omega
  | succ f ih =>
    have hne : n ≠ 0 := by omega
    simp only [bitLength, hne, if_false, Nat.add_sub_cancel]
    by_cases hhalf : n / 2 = 0
    · rw [hhalf, bitLength_zero]
      have : n = 1 := by omega
      subst this
      simp
    · have hih := ih (n / 2) (by omega) (by omega)
      have hb : 1 ≤ bitLength f (n / 2) := by
        by_contra hlt
        have h0 : bitLength f (n / 2) = 0 := by omega
        rw [h0] at hih
        simp at hih
        omega
      obtain ⟨k, hk⟩ : ∃ k, bitLength f (n / 2) = k + 1 := ⟨bitLength f (n / 2) - 1, by omega⟩
      rw [hk] at hih ⊢
      simp only [Nat.add_sub_cancel, Nat.pow_succ] at hih ⊢
      constructor <;> omega

theorem floorLog2_le (q : ℚ) (hq : 0 < q) : (2 : ℚ) ^ floorLog2 q ≤ q := by
  unfold floorLog2
  split_ifs with h
  · exact h
  · have hnum : 0 < q.num := Rat.num_pos.2 hq
    have ha : 0 < q.num.natAbs := Int.natAbs_pos.2 (ne_of_gt hnum)
    have hb : 0 < q.den := q.den_pos
    have h1 := (bitLength_bounds q.num.natAbs q.num.natAbs le_rfl ha).1
    have h2 := (bitLength_bounds q.den q.den le_rfl hb).2
    have h3 := (bitLength_bounds q.num.natAbs q.num.natAbs le_rfl ha).2
    have hla : 1 ≤ bitLength q.num.natAbs q.num.natAbs := by
      by_contra hlt
      have h0 : bitLength q.num.natAbs q.num.natAbs = 0 := by omega
      rw [h0, pow_zero] at h3
      omega
    obtain ⟨k, hk⟩ : ∃ k, bitLength q.num.natAbs q.num.natAbs = k + 1 :=
      ⟨bitLength q.num.natAbs q.num.natAbs - 1, by omega⟩
    rw [hk] at h1 ⊢
    simp only [Nat.add_sub_cancel] at h1
    have hexp : ((k + 1 : ℕ) : ℤ) - (bitLength q.den q.den : ℤ) - 1 =
        (k : ℤ) - (bitLength q.den q.den : ℤ) := by push_cast; ring
    rw [hexp, zpow_sub₀ (by norm_num : (2 : ℚ) ≠ 0), zpow_natCast, zpow_natCast]
    have hcast : (q.num.natAbs : ℚ) = (q.num : ℚ) := by
      have hz : (q.num.natAbs : ℤ) = q.num := Int.natAbs_of_nonneg (le_of_lt hnum)
      rw [← Int.cast_natCast, hz]
    have hqeq : (q.num.natAbs : ℚ) / (q.den : ℚ) = q := by
      rw [hcast]
      exact Rat.num_div_den q
    have h1q : (2 : ℚ) ^ k ≤ (q.num.natAbs : ℚ) := by exact_mod_cast h1
    have h2q : (q.den : ℚ) ≤ (2 : ℚ) ^ bitLength q.den q.den := by exact_mod_cast le_of_lt h2
    have hbq : (0 : ℚ) < (q.den : ℚ) := by exact_mod_cast hb
    calc (2 : ℚ) ^ k / (2 : ℚ) ^ bitLength q.den q.den
        ≤ (q.num.natAbs : ℚ) / (q.den : ℚ) := div_le_div₀ (by positivity) h1q hbq h2q
      _ = q := hqeq

theorem floorLog2_le_six (q : ℚ) (hq : 0 < q) (hle : q ≤ 100) : floorLog2 q ≤ 6 := by
  by_contra hgt
  have h7 : (7 : ℤ) ≤ floorLog2 q := by omega
  have h1 : (2 : ℚ) ^ (7 : ℤ) ≤ (2 : ℚ) ^ floorLog2 q :=
    zpow_le_zpow_right₀ (by norm_num) h7
  have h2 := floorLog2_le q hq
  have h3 : (2 : ℚ) ^ (7 : ℤ) = 128 := by norm_num
  rw [h3] at h1
  linarith

theorem roundBinary64_nonneg (q : ℚ) (hq : 0 ≤ q) : 0 ≤ roundBinary64 q := by
  unfold roundBinary64
  split_ifs with h0 hpos
  · exact le_rfl
  · have hx : 0 ≤ q / (2 : ℚ) ^ max (floorLog2 q - 52) (-1074) := by positivity
    have hr := roundHalfEven_nonneg _ hx
    have hrq : (0 : ℚ) ≤ (roundHalfEven (q / (2 : ℚ) ^ max (floorLog2 q - 52) (-1074)) : ℚ) := by
      exact_mod_cast hr
    positivity
  · exact absurd (lt_of_le_of_ne hq (Ne.symm h0)) hpos

theorem roundBinary64_err (q : ℚ) (hq : 0 ≤ q) (hle : q ≤ 100) :
    |roundBinary64 q - q| ≤ (2 : ℚ) ^ (-47 : ℤ) := by
  unfold roundBinary64
  split_ifs with h0 hpos
  · rw [h0]
    norm_num
  · have he := floorLog2_le_six q hpos hle
    have hu : max (floorLog2 q - 52) (-1074) ≤ -46 := by
      apply max_le <;> omega
    have hpow : (2 : ℚ) ^ max (floorLog2 q - 52) (-1074) ≤ (2 : ℚ) ^ (-46 : ℤ) :=
      zpow_le_zpow_right₀ (by norm_num) hu
    have hpos2 : (0 : ℚ) < (2 : ℚ) ^ max (floorLog2 q - 52) (-1074) := by positivity
    have herr := roundHalfEven_err (q / (2 : ℚ) ^ max (floorLog2 q - 52) (-1074))
    have hfac : (roundHalfEven (q / (2 : ℚ) ^ max (floorLog2 q - 52) (-1074)) : ℚ) *
          (2 : ℚ) ^ max (floorLog2 q - 52) (-1074) - q =
        ((roundHalfEven (q / (2 : ℚ) ^ max (floorLog2 q - 52) (-1074)) : ℚ) -
          q / (2 : ℚ) ^ max (floorLog2 q - 52) (-1074)) *
          (2 : ℚ) ^ max (floorLog2 q - 52) (-1074) := by
      field_simp
    rw [hfac, abs_mul, abs_of_pos hpos2]
    have h47 : (2 : ℚ) ^ (-47 : ℤ) = 1 / 2 * (2 : ℚ) ^ (-46 : ℤ) := by norm_num
    rw [h47]
    exact mul_le_mul herr hpow (le_of_lt hpos2) (by norm_num)
  · exact absurd (lt_of_le_of_ne hq (Ne.symm h0)) hpos

theorem padDigits_two :
    ∀ m, m < 100 → padDigits 2 m = ⟨[Nat.digitChar (m / 10), Nat.digitChar (m % 10)]⟩ := by
  decide!

theorem toFixedModel_two (x : ℚ) (hx : 0 ≤ x) : toFixedModel x 2 = hundredthsString x := by
  have hneg : ¬ x < 0 := not_lt.2 hx
  have harg : |x| * (10 : ℚ) ^ 2 + 1 / 2 = 100 * x + 1 / 2 := by
    rw [abs_of_nonneg hx]
    ring
  have hmod : ⌊100 * x + 1 / 2⌋.toNat % 100 < 100 := Nat.mod_lt _ (by decide)
  have h1 : ⌊100 * x + 1 / 2⌋.toNat % 100 / 10 = ⌊100 * x + 1 / 2⌋.toNat / 10 % 10 := by omega
  have h2 : ⌊100 * x + 1 / 2⌋.toNat % 100 % 10 = ⌊100 * x + 1 / 2⌋.toNat % 10 := by omega
  simp only [toFixedModel, hundredthsString, hneg, if_false, harg, String.empty_append,
    show (10 : ℕ) ^ 2 = 100 from rfl, padDigits_two _ hmod, h1, h2,
    show ((2 : ℕ) = 0) = False from by simp]

theorem floor_hundredths_stable (x y ε : ℚ) (hclose : |x - y| ≤ ε)
    (hfar : ∀ k : ℤ, ε < |y - (2 * (k : ℚ) + 1) / 200|) :
    ⌊100 * x + 1 / 2⌋ = ⌊100 * y + 1 / 2⌋ := by
  rw [Int.floor_eq_iff]
  have h1 := Int.floor_le (100 * y + 1 / 2)
  have h2 := Int.lt_floor_add_one (100 * y + 1 / 2)
  have hlo := hfar (⌊100 * y + 1 / 2⌋ - 1)
  have hhi := hfar ⌊100 * y + 1 / 2⌋
  rw [abs_le] at hclose
  push_cast at hlo
  rw [abs_of_nonneg (by linarith)] at hlo
  rw [abs_of_neg (by linarith)] at hhi
  constructor <;> linarith

theorem lt_two_zpow_floorLog2_succ (q : ℚ) (hq : 0 < q) : q < (2 : ℚ) ^ (floorLog2 q + 1) := by
  unfold floorLog2
  split_ifs with h
  · have hnum : 0 < q.num := Rat.num_pos.2 hq
    have ha : 0 < q.num.natAbs := Int.natAbs_pos.2 (ne_of_gt hnum)
    have hb : 0 < q.den := q.den_pos
    have h1 := (bitLength_bounds q.den q.den le_rfl hb).1
    have h2 := (bitLength_bounds q.num.natAbs q.num.natAbs le_rfl ha).2
    have h3 := (bitLength_bounds q.den q.den le_rfl hb).2
    have hlb : 1 ≤ bitLength q.den q.den := by
      by_contra hlt
      have h0 : bitLength q.den q.den = 0 := by omega
      rw [h0, pow_zero] at h3
      omega
    obtain ⟨j, hj⟩ : ∃ j, bitLength q.den q.den = j + 1 :=
      ⟨bitLength q.den q.den - 1, by omega⟩
    rw [hj] at h1 ⊢
    simp only [Nat.add_sub_cancel] at h1
    have hexp : (bitLength q.num.natAbs q.num.natAbs : ℤ) - ((j + 1 : ℕ) : ℤ) + 1 =
        (bitLength q.num.natAbs q.num.natAbs : ℤ) - (j : ℤ) := by push_cast; ring
    rw [hexp, zpow_sub₀ (by norm_num : (2 : ℚ) ≠ 0), zpow_natCast, zpow_natCast]
    have hcast : (q.num.natAbs : ℚ) = (q.num : ℚ) := by
      have hz : (q.num.natAbs : ℤ) = q.num := Int.natAbs_of_nonneg (le_of_lt hnum)
      rw [← Int.cast_natCast, hz]
    have hqeq : (q.num.natAbs : ℚ) / (q.den : ℚ) = q := by
      rw [hcast]
      exact Rat.num_div_den q
    have h1q : (2 : ℚ) ^ j ≤ (q.den : ℚ) := by exact_mod_cast h1
    have h2q : (q.num.natAbs : ℚ) < (2 : ℚ) ^ bitLength q.num.natAbs q.num.natAbs := by
      exact_mod_cast h2
    calc q = (q.num.natAbs : ℚ) / (q.den : ℚ) := hqeq.symm
      _ < (2 : ℚ) ^ bitLength q.num.natAbs q.num.natAbs / (2 : ℚ) ^ j :=
        div_lt_div₀ h2q h1q (by positivity) (by positivity)
  · rw [sub_add_cancel]
    exact not_le.1 h

theorem confidence8765_far_from_midpoints (k : ℤ) :
    (2 : ℚ) ^ (-47 : ℤ) < |confidence8765 * 100 - (2 * (k : ℚ) + 1) / 200| := by
  have hsmall : (2 : ℚ) ^ (-47 : ℤ) < 1 / 1000 := by norm_num
  rcases le_or_lt k 8764 with h | h
  · have hk : (k : ℚ) ≤ 8764 := by exact_mod_cast h
    have hdiff : 1 / 1000 ≤ confidence8765 * 100 - (2 * (k : ℚ) + 1) / 200 := by
      unfold confidence8765
      linarith
    exact lt_of_lt_of_le (lt_of_lt_of_le hsmall hdiff) (le_abs_self _)
  · have hk : (8765 : ℚ) ≤ (k : ℚ) := by exact_mod_cast h
    have hdiff : 1 / 1000 ≤ -(confidence8765 * 100 - (2 * (k : ℚ) + 1) / 200) := by
      unfold confidence8765
      linarith
    exact lt_of_lt_of_le (lt_of_lt_of_le hsmall hdiff) (neg_le_abs _)

/-- Claim C14, refuted as stated: for the binary64 value nearest to `0.33335`, a confidence
in `[0, 1]`, the exact product with 100 lies within half a hundredth of `33.33` and so rounds
to `33.33`, but its binary64 product with 100 lies above `33.335` and the report's
`overall_confidence` is `33.34`. -/
theorem overall_confidence_ne_hundredths_of_exact_product :
    roundBinary64 confidence33335 = confidence33335 ∧
    0 ≤ confidence33335 ∧ confidence33335 ≤ 1 ∧
    |confidence33335 * 100 - 3333 / 100| < 1 / 200 ∧
    hundredthsString (confidence33335 * 100) = "33.33" ∧
    (generateTranscriptionReport binary64Host (sampleService [])
      (sampleWithConfidence confidence33335) "q").overall_confidence = "33.34" ∧
    (generateTranscriptionReport binary64Host (sampleService [])
      (sampleWithConfidence confidence33335) "q").overall_confidence ≠
        hundredthsString (confidence33335 * 100) := by
  decide!

/-- Claim C14, amended: for every confidence `c` in `[0, 1]`, `overall_confidence` is the
decimal string, with exactly two digits after the decimal point, of the binary64 product of
`c` and 100 rounded to the nearest hundredth, upward on a tie; that product is within
`2 ^ (-47)` of `c * 100`, so the string is that of `c * 100` itself whenever `c * 100` is
farther than `2 ^ (-47)` from every midpoint between two consecutive hundredths. -/
theorem overall_confidence_eq_hundredths_of_product (post : String → String → ServiceReply)
    (response : TranscriptionResult) (question : String)
    (hlow : 0 ≤ response.confidence) (hhigh : response.confidence ≤ 1) :
    (generateTranscriptionReport binary64Host post response question).overall_confidence =
      hundredthsString (roundBinary64 (response.confidence * 100)) ∧
    |roundBinary64 (response.confidence * 100) - response.confidence * 100| ≤
      (2 : ℚ) ^ (-47 : ℤ) ∧
    ((∀ k : ℤ, (2 : ℚ) ^ (-47 : ℤ) <
        |response.confidence * 100 - (2 * (k : ℚ) + 1) / 200|) →
      (generateTranscriptionReport binary64Host post response question).overall_confidence =
        hundredthsString (response.confidence * 100)) := by
  have hprod0 : 0 ≤ response.confidence * 100 := by positivity
  have hprod1 : response.confidence * 100 ≤ 100 := by linarith
  have hcode :
      (generateTranscriptionReport binary64Host post response question).overall_confidence =
        toFixedModel (roundBinary64 (response.confidence * 100)) 2 := rfl
  have herr := roundBinary64_err _ hprod0 hprod1
  have hstr := toFixedModel_two _ (roundBinary64_nonneg _ hprod0)
  refine ⟨hcode.trans hstr, herr, ?_⟩
  intro hfar
  rw [hcode, hstr]
  unfold hundredthsString
  rw [floor_hundredths_stable _ _ _ herr hfar]

theorem overall_confidence_eq_hundredths_of_product_witness :
    0 ≤ (sampleWithConfidence confidence8765).confidence ∧
    (sampleWithConfidence confidence8765).confidence ≤ 1 ∧
    ((generateTranscriptionReport binary64Host (sampleService [])
        (sampleWithConfidence confidence8765) "q").overall_confidence =
      hundredthsString (roundBinary64 ((sampleWithConfidence confidence8765).confidence * 100)) ∧
    |roundBinary64 ((sampleWithConfidence confidence8765).confidence * 100) -
        (sampleWithConfidence confidence8765).confidence * 100| ≤ (2 : ℚ) ^ (-47 : ℤ) ∧
    ((∀ k : ℤ, (2 : ℚ) ^ (-47 : ℤ) <
        |(sampleWithConfidence confidence8765).confidence * 100 - (2 * (k : ℚ) + 1) / 200|) →
      (generateTranscriptionReport binary64Host (sampleService [])
          (sampleWithConfidence confidence8765) "q").overall_confidence =
        hundredthsString ((sampleWithConfidence confidence8765).confidence * 100))) ∧
    roundBinary64 confidence8765 = confidence8765 ∧
    (generateTranscriptionReport binary64Host (sampleService [])
      (sampleWithConfidence confidence8765) "q").overall_confidence = "87.65" ∧
    (generateTranscriptionReport binary64Host (sampleService [])
        (sampleWithConfidence confidence8765) "q").overall_confidence =
      hundredthsString ((sampleWithConfidence confidence8765).confidence * 100) :=
  ⟨by decide!, by decide!,
    overall_confidence_eq_hundredths_of_product (sampleService [])
      (sampleWithConfidence confidence8765) "q" (by decide!) (by decide!),
    by decide!, by decide!,
    (overall_confidence_eq_hundredths_of_product (sampleService [])
      (sampleWithConfidence confidence8765) "q" (by decide!) (by decide!)).2.2
      confidence8765_far_from_midpoints⟩

end Report
